import Mathlib

/-!
Verification of the matching and arbitrage detection engine of the
poly-kalshi-arb repository. The Python source is embedded shallowly:
prices, sizes and scores become rationals, the two-pointer orderbook walk
of `ArbitrageCalculator._walk_orderbook` becomes a structurally recursive
function driven by a fuel counter (with a stabilisation lemma showing the
fuel `yes.length + no.length` always suffices, mirroring the bound on the
number of loop iterations), and the fuzzy matcher is embedded generically
over the third-party similarity scorer (rapidfuzz `token_sort_ratio`), which
the repository calls as a black box.
-/

namespace PolyKalshiArb

/-- Platform enum from src/models/market.py. -/
inductive Platform where
  | KALSHI
  | POLYMARKET
deriving DecidableEq, Repr, Inhabited

/-- Single price level in an orderbook, from src/models/orderbook.py.
Prices are on the 0.0-1.0 probability scale, sizes are contract counts. -/
structure OrderbookLevel where
  price : Rat
  size : Rat
deriving DecidableEq, Repr, Inhabited

/-- A single price level of an arbitrage opportunity, from
src/models/arbitrage.py. -/
structure ArbitrageLevel where
  buy_yes_platform : Platform
  buy_yes_price : Rat
  buy_no_platform : Platform
  buy_no_price : Rat
  quantity : Rat
  total_cost : Rat
  profit_percentage : Rat
  max_profit_dollars : Rat
deriving DecidableEq, Repr, Inhabited

/-- One iteration-bounded unfolding of the while loop of
`ArbitrageCalculator._walk_orderbook` (src/arbitrage/calculator.py).
The two lists are the remaining suffixes of `yes_remaining` and
`no_remaining` from the current pointers on; each loop iteration either
breaks (profit below threshold), emits a level and deducts the taken
quantity from both heads, or skips, and then drops every head whose
remaining size is non-positive. The fuel argument bounds the number of
iterations; `walkFuel_stable` below shows any fuel of at least
`yes.length + no.length` computes the value of the unbounded loop. -/
def walkFuel (minProfit : Rat) (yesPlat noPlat : Platform) :
    Nat → List (Rat × Rat) → List (Rat × Rat) → List ArbitrageLevel
  | 0, _, _ => []
  | _ + 1, [], _ => []
  | _ + 1, _ :: _, [] => []
  | fuel + 1, (yesPrice, yesQty) :: ys, (noPrice, noQty) :: ns =>
    let totalCost := yesPrice + noPrice
    let grossProfitPct := 1 - totalCost
    if grossProfitPct < minProfit then
      []
    else
      let qty := min yesQty noQty
      if 0 < qty then
        let lvl : ArbitrageLevel :=
          { buy_yes_platform := yesPlat
            buy_yes_price := yesPrice
            buy_no_platform := noPlat
            buy_no_price := noPrice
            quantity := qty
            total_cost := totalCost
            profit_percentage := grossProfitPct
            max_profit_dollars := qty * grossProfitPct }
        lvl :: walkFuel minProfit yesPlat noPlat fuel
          (if yesQty - qty ≤ 0 then ys else (yesPrice, yesQty - qty) :: ys)
          (if noQty - qty ≤ 0 then ns else (noPrice, noQty - qty) :: ns)
      else
        walkFuel minProfit yesPlat noPlat fuel
          (if yesQty ≤ 0 then ys else (yesPrice, yesQty) :: ys)
          (if noQty ≤ 0 then ns else (noPrice, noQty) :: ns)

/-- Embedding of `ArbitrageCalculator._walk_orderbook`
(src/arbitrage/calculator.py, lines 19-79): walk both ask ladders and collect every profitable
combination. The loop advances at least one pointer per iteration, so
`yes_asks.length + no_asks.length` iterations always suffice. -/
def walk_orderbook (minProfit : Rat) (yesPlat noPlat : Platform)
    (yes_asks no_asks : List OrderbookLevel) : List ArbitrageLevel :=
  walkFuel minProfit yesPlat noPlat (yes_asks.length + no_asks.length)
    (yes_asks.map fun lvl => (lvl.price, lvl.size))
    (no_asks.map fun lvl => (lvl.price, lvl.size))

/-- Kalshi taker fee coefficient, from src/arbitrage/fee_calculator.py. -/
def KALSHI_TAKER_COEFFICIENT : Rat := 7 / 100

/-- Embedding of `FeeCalculator.kalshi_taker_fee`
(src/arbitrage/fee_calculator.py, lines 16-29): the fee in cents is the ceiling of
`0.07 * contracts * price * (1 - price) * 100`; the result is returned
in dollars. The Python code performs no validation of its arguments. -/
def kalshi_taker_fee (contracts : Int) (price : Rat) : Rat :=
  let fee_cents : Int :=
    ⌈KALSHI_TAKER_COEFFICIENT * (contracts : Rat) * price * (1 - price) * 100⌉
  (fee_cents : Rat) / 100

/-- Polymarket taker fee rate, from src/arbitrage/fee_calculator.py. -/
def POLY_TAKER_RATE : Rat := 0

/-- Embedding of `FeeCalculator.polymarket_taker_fee`
(src/arbitrage/fee_calculator.py). -/
def polymarket_taker_fee (contracts : Int) (price : Rat) : Rat :=
  (contracts : Rat) * price * POLY_TAKER_RATE

/-- Embedding of `UnifiedMarket` (src/models/market.py), restricted to the fields the
matching engine reads. Identity is `(platform, market_id)`. -/
structure UnifiedMarket where
  platform : Platform
  market_id : String
  title : String
deriving DecidableEq, Repr, Inhabited

/-- Whether a character matches the regex class `\w` (word character).
The Python regex is applied with full unicode semantics; the embedding
uses `Char.isAlphanum` plus underscore, which agrees on ASCII titles. -/
def wordChar (c : Char) : Bool := c.isAlphanum || c = '_'

/-- Split a character list into its maximal runs of word characters.
The accumulator holds the current run, reversed. -/
def splitWordsAux : List Char → List Char → List (List Char)
  | [], acc => if acc.isEmpty then [] else [acc.reverse]
  | c :: cs, acc =>
    if wordChar c then splitWordsAux cs (c :: acc)
    else if acc.isEmpty then splitWordsAux cs []
    else acc.reverse :: splitWordsAux cs []

/-- Embedding of `UnifiedMarket.normalized_title` (src/models/market.py):
lowercase,
replace every non-word non-space character by a space, then collapse
whitespace runs and join the words by single spaces. The composite is
equivalent to joining the maximal word-character runs of the lowercased
title with single spaces. -/
def normalized_title (m : UnifiedMarket) : String :=
  String.intercalate " "
    ((splitWordsAux (m.title.toList.map Char.toLower) []).map fun w => String.mk w)

/-- Embedding of `MarketPair` (src/matching/fuzzy_matcher.py). -/
structure MarketPair where
  kalshi_market : UnifiedMarket
  poly_market : UnifiedMarket
  match_score : Rat
deriving DecidableEq, Repr, Inhabited

/-- Running maximum with index, scanning the remaining row with the next
index to assign; keeps the earlier index on ties, like `np.argmax`, which
returns the first occurrence of the maximum. -/
def argmaxAux : List Rat → Nat → Nat × Rat → Nat × Rat
  | [], _, best => best
  | s :: rest, i, best => argmaxAux rest (i + 1) (if best.2 < s then (i, s) else best)

/-- Best (index, score) of one row of the similarity matrix:
`np.argmax` and `np.max` along axis 1 in `FuzzyMatcher.find_matches`.
The empty case is unreachable because the poly list is non-empty there. -/
def rowBest (row : List Rat) : Nat × Rat :=
  match row with
  | [] => (0, 0)
  | s :: rest => argmaxAux rest 1 (0, s)

/-- The commit loop of `FuzzyMatcher.find_matches`
(src/matching/fuzzy_matcher.py, lines 70-85): visit the kalshi row indices
in order of descending best score, and commit a pair when its best score
reaches the threshold and its best poly index has not been claimed by an
earlier commit. -/
def commitLoop (kalshi poly : List UnifiedMarket) (best : List (Nat × Rat))
    (threshold : Rat) : List Nat → List Nat → List MarketPair
  | [], _ => []
  | i :: rest, claimed =>
    let b := best.getD i (0, 0)
    if threshold ≤ b.2 ∧ b.1 ∉ claimed then
      { kalshi_market := kalshi.getD i default
        poly_market := poly.getD b.1 default
        match_score := b.2 } :: commitLoop kalshi poly best threshold rest (b.1 :: claimed)
    else
      commitLoop kalshi poly best threshold rest claimed

/-- Embedding of `FuzzyMatcher.find_matches`
(src/matching/fuzzy_matcher.py, lines 32-85), generic over the third-party similarity scorer
(rapidfuzz `token_sort_ratio` via `cdist`), which the code treats as a
black-box pure function of the two normalized titles. `np.argsort` with
reversal is embedded as a stable descending sort of the row indices by
best score; on ties between distinct rows numpy may order differently,
which the source documents as an arbitrary consistent tie-break. -/
def find_matches (scorer : String → String → Rat) (threshold : Rat)
    (kalshi_markets poly_markets : List UnifiedMarket) : List MarketPair :=
  if kalshi_markets.isEmpty ∨ poly_markets.isEmpty then []
  else
    let polyTitles := poly_markets.map normalized_title
    let best : List (Nat × Rat) := kalshi_markets.map
      (fun m => rowBest (polyTitles.map (scorer (normalized_title m))))
    let sortedIdx := List.insertionSort
      (fun i j => (best.getD j (0, 0)).2 ≤ (best.getD i (0, 0)).2)
      (List.range kalshi_markets.length)
    commitLoop kalshi_markets poly_markets best threshold sortedIdx []

/-- Embedding of `Orderbook` (src/models/orderbook.py). -/
structure Orderbook where
  market_id : String
  yes_bids : List OrderbookLevel
  yes_asks : List OrderbookLevel
  no_bids : List OrderbookLevel
  no_asks : List OrderbookLevel
deriving DecidableEq, Repr, Inhabited

/-- Embedding of `ArbitrageOpportunity` (src/models/arbitrage.py). -/
structure ArbitrageOpportunity where
  kalshi_market : UnifiedMarket
  poly_market : UnifiedMarket
  match_score : Rat
  levels : List ArbitrageLevel
deriving DecidableEq, Repr, Inhabited

/-- Embedding of `ArbitrageOpportunity.best_profit_percentage`
(src/models/arbitrage.py):
the profit percentage of the first level, 0 when there are no levels. -/
def best_profit_percentage (opp : ArbitrageOpportunity) : Rat :=
  match opp.levels with
  | [] => 0
  | lvl :: _ => lvl.profit_percentage

/-- Sort key used on levels: profit percentage descending
(`key=lambda x: x.profit_percentage, reverse=True`). -/
def profitDesc (a b : ArbitrageLevel) : Prop :=
  b.profit_percentage ≤ a.profit_percentage

instance : DecidableRel profitDesc :=
  fun a b => inferInstanceAs (Decidable (b.profit_percentage ≤ a.profit_percentage))

/-- Sort key used on opportunities: best profit percentage descending. -/
def oppDesc (a b : ArbitrageOpportunity) : Prop :=
  best_profit_percentage b ≤ best_profit_percentage a

instance : DecidableRel oppDesc :=
  fun a b => inferInstanceAs (Decidable (best_profit_percentage b ≤ best_profit_percentage a))

/-- Embedding of `ArbitrageCalculator.calculate_opportunity`
(src/arbitrage/calculator.py, lines 81-122): run the walk in both
directions, concatenate, sort by profit descending (Python `list.sort` is
stable; so is insertion sort, hence both pick the same ordering), and
return an opportunity exactly when some level was emitted. -/
def calculate_opportunity (minProfit : Rat) (pair : MarketPair)
    (kalshi_orderbook poly_orderbook : Orderbook) : Option ArbitrageOpportunity :=
  let levels_1 := walk_orderbook minProfit Platform.KALSHI Platform.POLYMARKET
    kalshi_orderbook.yes_asks poly_orderbook.no_asks
  let levels_2 := walk_orderbook minProfit Platform.POLYMARKET Platform.KALSHI
    poly_orderbook.yes_asks kalshi_orderbook.no_asks
  let all_levels := List.insertionSort profitDesc (levels_1 ++ levels_2)
  if all_levels.isEmpty then none
  else
    some { kalshi_market := pair.kalshi_market
           poly_market := pair.poly_market
           match_score := pair.match_score
           levels := all_levels }

/-- The pair loop of `ArbitrageCalculator.find_all_opportunities`
(src/arbitrage/calculator.py, lines 124-141): look both books up by market
id (`dict.get`, embedded as a finite map) and silently skip the pair when
either is missing; a dataclass instance is always truthy in Python, so the
`if kalshi_book and poly_book` guard tests exactly presence. -/
def findLoop (minProfit : Rat)
    (kalshi_orderbooks poly_orderbooks : String → Option Orderbook) :
    List MarketPair → List ArbitrageOpportunity
  | [] => []
  | pair :: rest =>
    match kalshi_orderbooks pair.kalshi_market.market_id,
        poly_orderbooks pair.poly_market.market_id with
    | some kb, some pb =>
      match calculate_opportunity minProfit pair kb pb with
      | some opp => opp :: findLoop minProfit kalshi_orderbooks poly_orderbooks rest
      | none => findLoop minProfit kalshi_orderbooks poly_orderbooks rest
    | _, _ => findLoop minProfit kalshi_orderbooks poly_orderbooks rest

/-- Embedding of `ArbitrageCalculator.find_all_opportunities`
(src/arbitrage/calculator.py, lines 124-143): collect the opportunities of
all pairs and sort them by best profit percentage descending. -/
def find_all_opportunities (minProfit : Rat) (pairs : List MarketPair)
    (kalshi_orderbooks poly_orderbooks : String → Option Orderbook) :
    List ArbitrageOpportunity :=
  List.insertionSort oppDesc (findLoop minProfit kalshi_orderbooks poly_orderbooks pairs)

/-- Total quantity emitted by a walk. -/
def sumQ (l : List ArbitrageLevel) : Rat := (l.map fun lvl => lvl.quantity).sum

/-- Total size of a remaining ladder. -/
def sumS (l : List (Rat × Rat)) : Rat := (l.map fun a => a.2).sum

/-- Length of the post-iteration remainder of a ladder: the head is dropped
when its remaining size is non-positive, otherwise replaced in place. -/
lemma restLen_le {α : Type} (c : Prop) [Decidable c] (a : α) (l : List α) :
    (if c then l else a :: l).length ≤ l.length + 1 := by
  split <;> simp

lemma restLen_drop {α : Type} {c : Prop} [Decidable c] (hc : c) (a : α) (l : List α) :
    (if c then l else a :: l) = l := if_pos hc

/-- Each loop iteration of the walk advances at least one ladder pointer, so
one extra unit of fuel beyond the combined ladder length never changes the
result. -/
lemma walkFuel_succ (minProfit : Rat) (yesPlat noPlat : Platform) :
    ∀ (f : Nat) (yes no : List (Rat × Rat)),
      yes.length + no.length ≤ f →
      walkFuel minProfit yesPlat noPlat (f + 1) yes no =
        walkFuel minProfit yesPlat noPlat f yes no := by
  intro f
  induction f with
  | zero =>
    intro yes no h
    match yes, no with
    | [], [] => rfl
    | [], _ :: _ => simp at h
    | _ :: _, _ => simp at h
  | succ f ih =>
    intro yes no h
    match yes, no with
    | [], _ => rfl
    | _ :: _, [] => rfl
    | (yesPrice, yesQty) :: ys, (noPrice, noQty) :: ns =>
      simp only [List.length_cons] at h
      simp only [walkFuel]
      split
      · rfl
      · split
        · -- emit branch: the taken quantity exhausts at least one head
          rename_i hq
          have hrest :
              (if yesQty - min yesQty noQty ≤ 0 then ys
                else (yesPrice, yesQty - min yesQty noQty) :: ys).length +
              (if noQty - min yesQty noQty ≤ 0 then ns
                else (noPrice, noQty - min yesQty noQty) :: ns).length ≤ f := by
            rcases min_choice yesQty noQty with hm | hm
            · rw [restLen_drop (by rw [hm, sub_self])]
              have := restLen_le (noQty - min yesQty noQty ≤ 0)
                (noPrice, noQty - min yesQty noQty) ns
              omega
            · rw [restLen_drop (c := noQty - min yesQty noQty ≤ 0) (by rw [hm, sub_self])]
              have := restLen_le (yesQty - min yesQty noQty ≤ 0)
                (yesPrice, yesQty - min yesQty noQty) ys
              omega
          rw [ih _ _ hrest]
        · -- skip branch: at least one head has non-positive size and is dropped
          rename_i hq
          have hq2 : yesQty ≤ 0 ∨ noQty ≤ 0 := by
            rcases min_choice yesQty noQty with hm | hm
            · exact Or.inl (by rw [← hm]; exact le_of_not_lt hq)
            · exact Or.inr (by rw [← hm]; exact le_of_not_lt hq)
          have hrest :
              (if yesQty ≤ 0 then ys else (yesPrice, yesQty) :: ys).length +
              (if noQty ≤ 0 then ns else (noPrice, noQty) :: ns).length ≤ f := by
            rcases hq2 with hy | hn
            · rw [restLen_drop hy]
              have := restLen_le (noQty ≤ 0) (noPrice, noQty) ns
              omega
            · rw [restLen_drop hn]
              have := restLen_le (yesQty ≤ 0) (yesPrice, yesQty) ys
              omega
          rw [ih _ _ hrest]

/-- Any fuel of at least `yes.length + no.length` computes the same result
as fuel exactly `yes.length + no.length`: the while loop of
`_walk_orderbook` runs at most that many iterations. -/
lemma walkFuel_stable (minProfit : Rat) (yesPlat noPlat : Platform) :
    ∀ (f : Nat) (yes no : List (Rat × Rat)),
      yes.length + no.length ≤ f →
      walkFuel minProfit yesPlat noPlat f yes no =
        walkFuel minProfit yesPlat noPlat (yes.length + no.length) yes no := by
  intro f
  induction f with
  | zero =>
    intro yes no h
    have : yes.length + no.length = 0 := Nat.le_zero.mp h
    rw [this]
  | succ f ih =>
    intro yes no h
    rcases Nat.lt_or_ge (yes.length + no.length) (f + 1) with hlt | hge
    · have hle : yes.length + no.length ≤ f := Nat.lt_succ_iff.mp hlt
      rw [walkFuel_succ minProfit yesPlat noPlat f yes no hle, ih yes no hle]
    · have : yes.length + no.length = f + 1 := Nat.le_antisymm h hge
      rw [this]

/-- Every emitted level records its profit as one minus its total cost. -/
lemma walkFuel_profit_eq (minProfit : Rat) (yesPlat noPlat : Platform) :
    ∀ (f : Nat) (yes no : List (Rat × Rat)),
      ∀ lvl ∈ walkFuel minProfit yesPlat noPlat f yes no,
        lvl.profit_percentage = 1 - lvl.total_cost := by
  intro f
  induction f with
  | zero => intro yes no lvl h; simp [walkFuel] at h
  | succ f ih =>
    intro yes no lvl h
    match yes, no with
    | [], _ => simp [walkFuel] at h
    | _ :: _, [] => simp [walkFuel] at h
    | (yesPrice, yesQty) :: ys, (noPrice, noQty) :: ns =>
      simp only [walkFuel] at h
      split at h
      · simp at h
      · split at h
        · rcases List.mem_cons.mp h with rfl | h2
          · rfl
          · exact ih _ _ _ h2
        · exact ih _ _ _ h

/-- Every emitted level passed the profitability gate: its profit
percentage is at least the configured minimum. -/
lemma walkFuel_min_le_profit (minProfit : Rat) (yesPlat noPlat : Platform) :
    ∀ (f : Nat) (yes no : List (Rat × Rat)),
      ∀ lvl ∈ walkFuel minProfit yesPlat noPlat f yes no,
        minProfit ≤ lvl.profit_percentage := by
  intro f
  induction f with
  | zero => intro yes no lvl h; simp [walkFuel] at h
  | succ f ih =>
    intro yes no lvl h
    match yes, no with
    | [], _ => simp [walkFuel] at h
    | _ :: _, [] => simp [walkFuel] at h
    | (yesPrice, yesQty) :: ys, (noPrice, noQty) :: ns =>
      simp only [walkFuel] at h
      split at h
      · simp at h
      · rename_i hlt
        split at h
        · rcases List.mem_cons.mp h with rfl | h2
          · exact le_of_not_lt hlt
          · exact ih _ _ _ h2
        · exact ih _ _ _ h

/-- The ladder remaining after one iteration keeps ascending prices and
keeps every price at or above the old head price. -/
lemma restTail {c : Prop} [Decidable c] {yesPrice yesQty x : Rat}
    {ys : List (Rat × Rat)}
    (hp : ((yesPrice, yesQty) :: ys).Pairwise (fun a b => a.1 ≤ b.1)) :
    ((if c then ys else (yesPrice, x) :: ys).Pairwise (fun a b => a.1 ≤ b.1)) ∧
      (∀ a ∈ (if c then ys else (yesPrice, x) :: ys), yesPrice ≤ a.1) := by
  rcases List.pairwise_cons.mp hp with ⟨hhead, htail⟩
  constructor
  · split
    · exact htail
    · exact List.pairwise_cons.mpr ⟨fun b hb => hhead b hb, htail⟩
  · split
    · exact fun a ha => hhead a ha
    · intro a ha
      rcases List.mem_cons.mp ha with rfl | ha
      · exact le_refl _
      · exact hhead a ha

/-- With both ladders ascending, every emitted level costs at least the sum
of the current head prices. -/
lemma walkFuel_cost_lb (minProfit : Rat) (yesPlat noPlat : Platform) :
    ∀ (f : Nat) (yes no : List (Rat × Rat)) (py pn : Rat),
      yes.Pairwise (fun a b => a.1 ≤ b.1) → no.Pairwise (fun a b => a.1 ≤ b.1) →
      (∀ a ∈ yes, py ≤ a.1) → (∀ a ∈ no, pn ≤ a.1) →
      ∀ lvl ∈ walkFuel minProfit yesPlat noPlat f yes no,
        py + pn ≤ lvl.total_cost := by
  intro f
  induction f with
  | zero => intro yes no py pn _ _ _ _ lvl h; simp [walkFuel] at h
  | succ f ih =>
    intro yes no py pn hsY hsN hbY hbN lvl h
    match yes, no with
    | [], _ => simp [walkFuel] at h
    | _ :: _, [] => simp [walkFuel] at h
    | (yesPrice, yesQty) :: ys, (noPrice, noQty) :: ns =>
      have hyp : py ≤ yesPrice := hbY _ (List.mem_cons_self _ _)
      have hnp : pn ≤ noPrice := hbN _ (List.mem_cons_self _ _)
      simp only [walkFuel] at h
      split at h
      · simp at h
      · split at h
        · rcases List.mem_cons.mp h with rfl | h2
          · exact add_le_add hyp hnp
          · have hY := restTail (c := yesQty - min yesQty noQty ≤ 0)
              (x := yesQty - min yesQty noQty) hsY
            have hN := restTail (c := noQty - min yesQty noQty ≤ 0)
              (x := noQty - min yesQty noQty) hsN
            have hrec := ih _ _ yesPrice noPrice hY.1 hN.1 hY.2 hN.2 lvl h2
            exact le_trans (add_le_add hyp hnp) hrec
        · have hY := restTail (c := yesQty ≤ 0) (x := yesQty) hsY
          have hN := restTail (c := noQty ≤ 0) (x := noQty) hsN
          have hrec := ih _ _ yesPrice noPrice hY.1 hN.1 hY.2 hN.2 lvl h
          exact le_trans (add_le_add hyp hnp) hrec

/-- With both ladders ascending, the emitted sequence is pairwise
non-increasing in profit percentage. -/
lemma walkFuel_pairwise (minProfit : Rat) (yesPlat noPlat : Platform) :
    ∀ (f : Nat) (yes no : List (Rat × Rat)),
      yes.Pairwise (fun a b => a.1 ≤ b.1) → no.Pairwise (fun a b => a.1 ≤ b.1) →
      (walkFuel minProfit yesPlat noPlat f yes no).Pairwise
        (fun a b => b.profit_percentage ≤ a.profit_percentage) := by
  intro f
  induction f with
  | zero => intro yes no _ _; simp [walkFuel]
  | succ f ih =>
    intro yes no hsY hsN
    match yes, no with
    | [], _ => simp [walkFuel]
    | _ :: _, [] => simp [walkFuel]
    | (yesPrice, yesQty) :: ys, (noPrice, noQty) :: ns =>
      simp only [walkFuel]
      split
      · exact List.Pairwise.nil
      · split
        · rename_i hq
          have hY := restTail (c := yesQty - min yesQty noQty ≤ 0)
            (x := yesQty - min yesQty noQty) hsY
          have hN := restTail (c := noQty - min yesQty noQty ≤ 0)
            (x := noQty - min yesQty noQty) hsN
          refine List.pairwise_cons.mpr ⟨?_, ih _ _ hY.1 hN.1⟩
          intro q hqmem
          have hcost := walkFuel_cost_lb minProfit yesPlat noPlat f _ _
            yesPrice noPrice hY.1 hN.1 hY.2 hN.2 q hqmem
          have hpe := walkFuel_profit_eq minProfit yesPlat noPlat f _ _ q hqmem
          show q.profit_percentage ≤ 1 - (yesPrice + noPrice)
          rw [hpe]
          linarith
        · have hY := restTail (c := yesQty ≤ 0) (x := yesQty) hsY
          have hN := restTail (c := noQty ≤ 0) (x := noQty) hsN
          exact ih _ _ hY.1 hN.1

lemma sumQ_cons (a : ArbitrageLevel) (l : List ArbitrageLevel) :
    sumQ (a :: l) = a.quantity + sumQ l := by
  simp [sumQ]

lemma sumS_cons (a : Rat × Rat) (l : List (Rat × Rat)) :
    sumS (a :: l) = a.2 + sumS l := by
  simp [sumS]

lemma sumS_nonneg {l : List (Rat × Rat)} (h : ∀ a ∈ l, 0 ≤ a.2) : 0 ≤ sumS l := by
  refine List.sum_nonneg ?_
  intro x hx
  rcases List.mem_map.mp hx with ⟨a, ha, rfl⟩
  exact h a ha

/-- The remaining ladder keeps non-negative sizes. -/
lemma restSizes {c : Prop} [Decidable c] {p x : Rat} {ys : List (Rat × Rat)}
    (hx : 0 ≤ x) (hys : ∀ a ∈ ys, 0 ≤ a.2) :
    ∀ a ∈ (if c then ys else (p, x) :: ys), 0 ≤ a.2 := by
  split
  · exact hys
  · intro a ha
    rcases List.mem_cons.mp ha with rfl | ha
    · exact hx
    · exact hys a ha

lemma restSum_le {c : Prop} [Decidable c] {qty yesQty yesPrice : Rat}
    (hqy : qty ≤ yesQty) (ys : List (Rat × Rat)) :
    qty + sumS (if c then ys else (yesPrice, yesQty - qty) :: ys) ≤
      yesQty + sumS ys := by
  split
  · exact add_le_add_right hqy _
  · rw [sumS_cons]
    simp only
    linarith

lemma restSum0_le {c : Prop} [Decidable c] {yesQty yesPrice : Rat}
    (h0 : 0 ≤ yesQty) (ys : List (Rat × Rat)) :
    sumS (if c then ys else (yesPrice, yesQty) :: ys) ≤ yesQty + sumS ys := by
  split
  · linarith
  · rw [sumS_cons]

/-- Quantity conservation: the walk never emits more total quantity than
either ladder holds. -/
lemma walkFuel_sumQ (minProfit : Rat) (yesPlat noPlat : Platform) :
    ∀ (f : Nat) (yes no : List (Rat × Rat)),
      (∀ a ∈ yes, 0 ≤ a.2) → (∀ a ∈ no, 0 ≤ a.2) →
      sumQ (walkFuel minProfit yesPlat noPlat f yes no) ≤ sumS yes ∧
        sumQ (walkFuel minProfit yesPlat noPlat f yes no) ≤ sumS no := by
  intro f
  induction f with
  | zero =>
    intro yes no hY hN
    simp only [walkFuel]
    exact ⟨by simpa [sumQ] using sumS_nonneg hY, by simpa [sumQ] using sumS_nonneg hN⟩
  | succ f ih =>
    intro yes no hY hN
    match yes, no with
    | [], _ =>
      simp only [walkFuel]
      exact ⟨by simpa [sumQ] using sumS_nonneg hY, by simpa [sumQ] using sumS_nonneg hN⟩
    | _ :: _, [] =>
      simp only [walkFuel]
      exact ⟨by simpa [sumQ] using sumS_nonneg hY, by simpa [sumQ] using sumS_nonneg hN⟩
    | (yesPrice, yesQty) :: ys, (noPrice, noQty) :: ns =>
      have hyq : 0 ≤ yesQty := hY _ (List.mem_cons_self _ _)
      have hnq : 0 ≤ noQty := hN _ (List.mem_cons_self _ _)
      have hysTail : ∀ a ∈ ys, 0 ≤ a.2 := fun a ha => hY a (List.mem_cons_of_mem _ ha)
      have hnsTail : ∀ a ∈ ns, 0 ≤ a.2 := fun a ha => hN a (List.mem_cons_of_mem _ ha)
      simp only [walkFuel]
      split
      · exact ⟨by simpa [sumQ] using sumS_nonneg hY, by simpa [sumQ] using sumS_nonneg hN⟩
      · split
        · rename_i hq
          have hYr := restSizes (c := yesQty - min yesQty noQty ≤ 0)
            (p := yesPrice) (sub_nonneg.mpr (min_le_left yesQty noQty)) hysTail
          have hNr := restSizes (c := noQty - min yesQty noQty ≤ 0)
            (p := noPrice) (sub_nonneg.mpr (min_le_right yesQty noQty)) hnsTail
          have ihh := ih _ _ hYr hNr
          constructor
          · rw [sumQ_cons, sumS_cons]
            calc min yesQty noQty + sumQ _ ≤ min yesQty noQty + sumS _ :=
                add_le_add_left ihh.1 _
              _ ≤ yesQty + sumS ys := restSum_le (min_le_left _ _) ys
          · rw [sumQ_cons, sumS_cons]
            calc min yesQty noQty + sumQ _ ≤ min yesQty noQty + sumS _ :=
                add_le_add_left ihh.2 _
              _ ≤ noQty + sumS ns := restSum_le (min_le_right _ _) ns
        · have hYr := restSizes (c := yesQty ≤ 0) (p := yesPrice) hyq hysTail
          have hNr := restSizes (c := noQty ≤ 0) (p := noPrice) hnq hnsTail
          have ihh := ih _ _ hYr hNr
          constructor
          · rw [sumS_cons]
            exact le_trans ihh.1 (restSum0_le hyq ys)
          · rw [sumS_cons]
            exact le_trans ihh.2 (restSum0_le hnq ns)

/-- When the current head combination is unprofitable the loop emits
nothing at all, whatever fuel is available. -/
lemma walkFuel_stop (minProfit : Rat) (yesPlat noPlat : Platform) (f : Nat)
    (yesPrice yesQty noPrice noQty : Rat) (ys ns : List (Rat × Rat))
    (h : 1 - (yesPrice + noPrice) < minProfit) :
    walkFuel minProfit yesPlat noPlat f
      ((yesPrice, yesQty) :: ys) ((noPrice, noQty) :: ns) = [] := by
  match f with
  | 0 => rfl
  | f + 1 =>
    simp only [walkFuel]
    rw [if_pos h]

lemma sumS_map_size (l : List OrderbookLevel) :
    sumS (l.map fun lvl => (lvl.price, lvl.size)) = (l.map fun lvl => lvl.size).sum := by
  simp only [sumS, List.map_map]
  rfl

/-- C1: on ascending ladders with non-negative sizes, the emitted levels
are non-increasing in profit percentage, every emitted level meets the
minimum profit threshold, and as soon as the head combination of the two
ladders falls below the threshold the walk stops, emitting nothing at or
after that point. -/
theorem C1_walk_profit_monotone_threshold_stop
    (minProfit : Rat) (yesPlat noPlat : Platform)
    (yes_asks no_asks : List OrderbookLevel)
    (hsY : yes_asks.Pairwise (fun a b => a.price ≤ b.price))
    (hsN : no_asks.Pairwise (fun a b => a.price ≤ b.price))
    (hqY : ∀ lvl ∈ yes_asks, 0 ≤ lvl.size)
    (hqN : ∀ lvl ∈ no_asks, 0 ≤ lvl.size) :
    ((walk_orderbook minProfit yesPlat noPlat yes_asks no_asks).Pairwise
        (fun a b => b.profit_percentage ≤ a.profit_percentage)) ∧
    (∀ lvl ∈ walk_orderbook minProfit yesPlat noPlat yes_asks no_asks,
        minProfit ≤ lvl.profit_percentage) ∧
    (∀ (y n : OrderbookLevel) (ys ns : List OrderbookLevel),
        1 - (y.price + n.price) < minProfit →
        walk_orderbook minProfit yesPlat noPlat (y :: ys) (n :: ns) = []) := by
  refine ⟨?_, ?_, ?_⟩
  · apply walkFuel_pairwise
    · exact (List.pairwise_map).mpr hsY
    · exact (List.pairwise_map).mpr hsN
  · intro lvl h
    exact walkFuel_min_le_profit minProfit yesPlat noPlat _ _ _ lvl h
  · intro y n ys ns h
    simp only [walk_orderbook, List.map_cons]
    exact walkFuel_stop _ _ _ _ _ _ _ _ _ _ h

/-- C1 witness: instantiation at a concrete profitable one-level book. -/
theorem C1_witness :
    (([⟨2/5, 5⟩] : List OrderbookLevel).Pairwise (fun a b => a.price ≤ b.price) ∧
     ([⟨1/2, 5⟩] : List OrderbookLevel).Pairwise (fun a b => a.price ≤ b.price) ∧
     (∀ lvl ∈ ([⟨2/5, 5⟩] : List OrderbookLevel), 0 ≤ lvl.size) ∧
     (∀ lvl ∈ ([⟨1/2, 5⟩] : List OrderbookLevel), 0 ≤ lvl.size)) ∧
    (((walk_orderbook (1/50) Platform.KALSHI Platform.POLYMARKET
          [⟨2/5, 5⟩] [⟨1/2, 5⟩]).Pairwise
        (fun a b => b.profit_percentage ≤ a.profit_percentage)) ∧
     (∀ lvl ∈ walk_orderbook (1/50) Platform.KALSHI Platform.POLYMARKET
          [⟨2/5, 5⟩] [⟨1/2, 5⟩], (1:Rat)/50 ≤ lvl.profit_percentage) ∧
     (∀ (y n : OrderbookLevel) (ys ns : List OrderbookLevel),
        1 - (y.price + n.price) < 1/50 →
        walk_orderbook (1/50) Platform.KALSHI Platform.POLYMARKET
          (y :: ys) (n :: ns) = [])) :=
  ⟨⟨by simp, by simp, by norm_num, by norm_num⟩,
    C1_walk_profit_monotone_threshold_stop (1/50) Platform.KALSHI Platform.POLYMARKET
      [⟨2/5, 5⟩] [⟨1/2, 5⟩] (by simp) (by simp) (by norm_num) (by norm_num)⟩

/-- C4: with non-negative sizes on both ladders, the total emitted
quantity never exceeds the smaller of the two ladder size totals. -/
theorem C4_quantity_conservation
    (minProfit : Rat) (yesPlat noPlat : Platform)
    (yes_asks no_asks : List OrderbookLevel)
    (hqY : ∀ lvl ∈ yes_asks, 0 ≤ lvl.size)
    (hqN : ∀ lvl ∈ no_asks, 0 ≤ lvl.size) :
    sumQ (walk_orderbook minProfit yesPlat noPlat yes_asks no_asks) ≤
      min ((yes_asks.map fun lvl => lvl.size).sum)
        ((no_asks.map fun lvl => lvl.size).sum) := by
  have h := walkFuel_sumQ minProfit yesPlat noPlat
    (yes_asks.length + no_asks.length)
    (yes_asks.map fun lvl => (lvl.price, lvl.size))
    (no_asks.map fun lvl => (lvl.price, lvl.size))
    (by intro a ha; rcases List.mem_map.mp ha with ⟨lvl, hlvl, rfl⟩; exact hqY lvl hlvl)
    (by intro a ha; rcases List.mem_map.mp ha with ⟨lvl, hlvl, rfl⟩; exact hqN lvl hlvl)
  rw [sumS_map_size, sumS_map_size] at h
  exact le_min h.1 h.2

/-- C4 witness: instantiation at a concrete two-level book. -/
theorem C4_witness :
    ((∀ lvl ∈ ([⟨2/5, 5⟩, ⟨9/20, 7⟩] : List OrderbookLevel), 0 ≤ lvl.size) ∧
     (∀ lvl ∈ ([⟨1/2, 5⟩] : List OrderbookLevel), 0 ≤ lvl.size)) ∧
    sumQ (walk_orderbook (1/50) Platform.KALSHI Platform.POLYMARKET
        [⟨2/5, 5⟩, ⟨9/20, 7⟩] [⟨1/2, 5⟩]) ≤
      min ((([⟨2/5, 5⟩, ⟨9/20, 7⟩] : List OrderbookLevel).map fun lvl => lvl.size).sum)
        ((([⟨1/2, 5⟩] : List OrderbookLevel).map fun lvl => lvl.size).sum) :=
  ⟨⟨by norm_num, by norm_num⟩,
    C4_quantity_conservation (1/50) Platform.KALSHI Platform.POLYMARKET
      [⟨2/5, 5⟩, ⟨9/20, 7⟩] [⟨1/2, 5⟩] (by norm_num) (by norm_num)⟩

/-- C8: scenario B of the spec. With yes asks (0.48, 20), (0.50, 30), no
asks (0.50, 40) and threshold 0.02, exactly one level is emitted, with
quantity 20, total cost 0.98 and profit percentage 0.02; the second head
combination costs 1.00 and stops the walk. -/
theorem C8_scenario_B :
    walk_orderbook (1/50) Platform.KALSHI Platform.POLYMARKET
      [⟨12/25, 20⟩, ⟨1/2, 30⟩] [⟨1/2, 40⟩] =
    [{ buy_yes_platform := Platform.KALSHI, buy_yes_price := 12/25,
       buy_no_platform := Platform.POLYMARKET, buy_no_price := 1/2,
       quantity := 20, total_cost := 49/50, profit_percentage := 1/50,
       max_profit_dollars := 2/5 }] := by
  with_unfolding_all rfl

/-- C10: the walk is fully determined after at most
`yes_asks.length + no_asks.length` loop iterations, for every finite
input, including unsorted ladders and zero or negative sizes: any fuel at
least that bound computes `walk_orderbook`. -/
theorem C10_walk_terminates
    (minProfit : Rat) (yesPlat noPlat : Platform)
    (yes_asks no_asks : List OrderbookLevel) (f : Nat)
    (hf : yes_asks.length + no_asks.length ≤ f) :
    walkFuel minProfit yesPlat noPlat f
      (yes_asks.map fun lvl => (lvl.price, lvl.size))
      (no_asks.map fun lvl => (lvl.price, lvl.size)) =
    walk_orderbook minProfit yesPlat noPlat yes_asks no_asks := by
  have h := walkFuel_stable minProfit yesPlat noPlat f
    (yes_asks.map fun lvl => (lvl.price, lvl.size))
    (no_asks.map fun lvl => (lvl.price, lvl.size))
    (by simpa using hf)
  rw [h]
  simp only [walk_orderbook, List.length_map]

/-- C10 witness: instantiation at an unsorted ladder with a negative size
and generous fuel. -/
theorem C10_witness :
    (([⟨3/4, -2⟩, ⟨1/4, 5⟩] : List OrderbookLevel).length +
      ([⟨1/2, 3⟩] : List OrderbookLevel).length ≤ 10) ∧
    walkFuel (1/50) Platform.KALSHI Platform.POLYMARKET 10
      (([⟨3/4, -2⟩, ⟨1/4, 5⟩] : List OrderbookLevel).map fun lvl => (lvl.price, lvl.size))
      (([⟨1/2, 3⟩] : List OrderbookLevel).map fun lvl => (lvl.price, lvl.size)) =
    walk_orderbook (1/50) Platform.KALSHI Platform.POLYMARKET
      [⟨3/4, -2⟩, ⟨1/4, 5⟩] [⟨1/2, 3⟩] :=
  ⟨by simp,
    C10_walk_terminates (1/50) Platform.KALSHI Platform.POLYMARKET
      [⟨3/4, -2⟩, ⟨1/4, 5⟩] [⟨1/2, 3⟩] 10 (by simp)⟩

/-- C3: contrary to the claim, the code signals no InvalidInput condition
anywhere: the fee function happily returns a negative fee for a negative
contract count and zero for a zero contract count, and the walk processes
malformed price levels (price outside the unit interval, negative size)
silently, returning an ordinary result. -/
theorem C3_no_error_signalled :
    kalshi_taker_fee (-1) (1/2) = -1/100 ∧
    kalshi_taker_fee 0 (1/2) = 0 ∧
    walk_orderbook (1/50) Platform.KALSHI Platform.POLYMARKET
      [⟨-1/2, 10⟩] [⟨1/2, 5⟩] =
      [{ buy_yes_platform := Platform.KALSHI, buy_yes_price := -1/2,
         buy_no_platform := Platform.POLYMARKET, buy_no_price := 1/2,
         quantity := 5, total_cost := 0, profit_percentage := 1,
         max_profit_dollars := 5 }] ∧
    walk_orderbook (1/50) Platform.KALSHI Platform.POLYMARKET
      [⟨1/4, -3⟩] [⟨1/2, 5⟩] = [] := by
  refine ⟨?_, ?_, ?_, ?_⟩ <;> with_unfolding_all rfl

/-- C6: for at least one contract and a price in the unit interval, the
Kalshi taker fee is the ceiling formula, it never undershoots the
unrounded fee, and it vanishes at the endpoint prices. -/
theorem C6_kalshi_fee_formula (contracts : Int) (price : Rat)
    (hc : 1 ≤ contracts) (h0 : 0 ≤ price) (h1 : price ≤ 1) :
    kalshi_taker_fee contracts price =
      ((⌈(7/100 : Rat) * (contracts : Rat) * price * (1 - price) * 100⌉ : Int) : Rat) / 100 ∧
    (7/100 : Rat) * (contracts : Rat) * price * (1 - price) ≤
      kalshi_taker_fee contracts price ∧
    kalshi_taker_fee contracts 0 = 0 ∧
    kalshi_taker_fee contracts 1 = 0 := by
  refine ⟨?_, ?_, ?_, ?_⟩
  · simp [kalshi_taker_fee, KALSHI_TAKER_COEFFICIENT]
  · have h := Int.le_ceil
      (KALSHI_TAKER_COEFFICIENT * (contracts : Rat) * price * (1 - price) * 100)
    simp only [kalshi_taker_fee, KALSHI_TAKER_COEFFICIENT] at h ⊢
    linarith
  · norm_num [kalshi_taker_fee]
  · norm_num [kalshi_taker_fee]

/-- C6 witness: three contracts at price one half; the unrounded fee is
0.0525 dollars and the returned fee is 0.06 dollars. -/
theorem C6_witness :
    ((1:Int) ≤ 3 ∧ (0:Rat) ≤ 1/2 ∧ (1/2:Rat) ≤ 1) ∧
    (kalshi_taker_fee 3 (1/2) =
      ((⌈(7/100 : Rat) * ((3:Int) : Rat) * (1/2) * (1 - 1/2) * 100⌉ : Int) : Rat) / 100 ∧
    (7/100 : Rat) * ((3:Int) : Rat) * (1/2) * (1 - 1/2) ≤ kalshi_taker_fee 3 (1/2) ∧
    kalshi_taker_fee 3 0 = 0 ∧
    kalshi_taker_fee 3 1 = 0) :=
  ⟨⟨by norm_num, by norm_num, by norm_num⟩,
    C6_kalshi_fee_formula 3 (1/2) (by norm_num) (by norm_num) (by norm_num)⟩

/-- The argmax accumulator keeps its index below the scan frontier. -/
lemma argmaxAux_fst_lt :
    ∀ (l : List Rat) (i : Nat) (b : Nat × Rat),
      b.1 < i → (argmaxAux l i b).1 < i + l.length := by
  intro l
  induction l with
  | nil => intro i b hb; simpa using hb
  | cons s rest ih =>
    intro i b hb
    simp only [argmaxAux]
    have hb2 : (if b.2 < s then (i, s) else b).1 < i + 1 := by
      split
      · simp
      · exact Nat.lt_succ_of_lt hb
    have h := ih (i + 1) _ hb2
    simp only [List.length_cons]
    omega

/-- The best index of a non-empty row is a valid column index. -/
lemma rowBest_fst_lt (row : List Rat) (h : row ≠ []) :
    (rowBest row).1 < row.length := by
  match row, h with
  | s :: rest, _ =>
    simp only [rowBest]
    have h1 := argmaxAux_fst_lt rest 1 (0, s) (by simp)
    simp only [List.length_cons]
    omega

/-- Distinct valid indices into a list with pairwise-distinct market ids
yield distinct market ids. -/
lemma getD_map_id_ne {l : List UnifiedMarket}
    (h : (l.map fun m => m.market_id).Nodup) {i j : Nat}
    (hi : i < l.length) (hj : j < l.length) (hij : i ≠ j) :
    (l.getD i default).market_id ≠ (l.getD j default).market_id := by
  rw [List.getD_eq_getElem l default hi, List.getD_eq_getElem l default hj]
  intro he
  apply hij
  have hi2 : i < (l.map fun m => m.market_id).length := by simpa using hi
  have hj2 : j < (l.map fun m => m.market_id).length := by simpa using hj
  have h2 : (l.map fun m => m.market_id)[i] = (l.map fun m => m.market_id)[j] := by
    rw [List.getElem_map, List.getElem_map]
    exact he
  exact (h.getElem_inj_iff).mp h2

/-- Every committed pair passed the threshold check. -/
lemma commitLoop_score (kalshi poly : List UnifiedMarket) (best : List (Nat × Rat))
    (threshold : Rat) :
    ∀ (idxs claimed : List Nat),
      ∀ p ∈ commitLoop kalshi poly best threshold idxs claimed,
        threshold ≤ p.match_score := by
  intro idxs
  induction idxs with
  | nil => intro claimed p hp; simp [commitLoop] at hp
  | cons i rest ih =>
    intro claimed p hp
    simp only [commitLoop] at hp
    split at hp
    · rename_i hcond
      rcases List.mem_cons.mp hp with rfl | hp2
      · exact hcond.1
      · exact ih _ p hp2
    · exact ih _ p hp

/-- Every committed pair is built from a visited row index whose best poly
index was unclaimed at every point from the start of the loop. -/
lemma commitLoop_shape (kalshi poly : List UnifiedMarket) (best : List (Nat × Rat))
    (threshold : Rat) :
    ∀ (idxs claimed : List Nat),
      ∀ p ∈ commitLoop kalshi poly best threshold idxs claimed,
        ∃ i ∈ idxs,
          p.kalshi_market = kalshi.getD i default ∧
          p.poly_market = poly.getD (best.getD i (0, 0)).1 default ∧
          (best.getD i (0, 0)).1 ∉ claimed := by
  intro idxs
  induction idxs with
  | nil => intro claimed p hp; simp [commitLoop] at hp
  | cons i rest ih =>
    intro claimed p hp
    simp only [commitLoop] at hp
    split at hp
    · rename_i hcond
      rcases List.mem_cons.mp hp with rfl | hp2
      · exact ⟨i, List.mem_cons_self _ _, rfl, rfl, hcond.2⟩
      · rcases ih _ p hp2 with ⟨i2, hi2, h1, h2, h3⟩
        exact ⟨i2, List.mem_cons_of_mem _ hi2, h1, h2,
          fun hc => h3 (List.mem_cons_of_mem _ hc)⟩
    · rcases ih _ p hp with ⟨i2, hi2, h1, h2, h3⟩
      exact ⟨i2, List.mem_cons_of_mem _ hi2, h1, h2, h3⟩

/-- With pairwise-distinct market ids on both inputs, committed pairs are
pairwise distinct on both their kalshi and their poly market ids: the visited
row indices are distinct, and the claimed-set check keeps poly indices
distinct. -/
lemma commitLoop_pairwise (kalshi poly : List UnifiedMarket) (best : List (Nat × Rat))
    (threshold : Rat)
    (hNk : (kalshi.map fun m => m.market_id).Nodup)
    (hNp : (poly.map fun m => m.market_id).Nodup) :
    ∀ (idxs claimed : List Nat), idxs.Nodup →
      (∀ i ∈ idxs, i < kalshi.length) →
      (∀ i ∈ idxs, (best.getD i (0, 0)).1 < poly.length) →
      (commitLoop kalshi poly best threshold idxs claimed).Pairwise
        (fun p q => p.kalshi_market.market_id ≠ q.kalshi_market.market_id ∧
          p.poly_market.market_id ≠ q.poly_market.market_id) := by
  intro idxs
  induction idxs with
  | nil => intro claimed _ _ _; simp [commitLoop]
  | cons i rest ih =>
    intro claimed hnd hbk hbp
    have hknotin : i ∉ rest := (List.nodup_cons.mp hnd).1
    have hndr : rest.Nodup := (List.nodup_cons.mp hnd).2
    have hbkr : ∀ a ∈ rest, a < kalshi.length :=
      fun a ha => hbk a (List.mem_cons_of_mem _ ha)
    have hbpr : ∀ a ∈ rest, (best.getD a (0, 0)).1 < poly.length :=
      fun a ha => hbp a (List.mem_cons_of_mem _ ha)
    simp only [commitLoop]
    split
    · refine List.pairwise_cons.mpr ⟨?_, ih _ hndr hbkr hbpr⟩
      intro q hq
      rcases commitLoop_shape kalshi poly best threshold rest _ q hq with
        ⟨i2, hi2, hqk, hqp, hqnotin⟩
      have hii2 : i ≠ i2 := fun he => hknotin (he ▸ hi2)
      constructor
      · rw [hqk]
        exact getD_map_id_ne hNk (hbk i (List.mem_cons_self _ _)) (hbkr i2 hi2) hii2
      · rw [hqp]
        have hjne : (best.getD i2 (0, 0)).1 ≠ (best.getD i (0, 0)).1 :=
          fun he => hqnotin (he ▸ List.mem_cons_self _ _)
        exact getD_map_id_ne hNp (hbp i (List.mem_cons_self _ _)) (hbpr i2 hi2)
          (Ne.symm hjne)
    · exact ih _ hndr hbkr hbpr

/-- C2 (amended): for every scorer, threshold and input lists whose market
ids are pairwise distinct within each list, every returned pair has a
match score at least the threshold, and no market id from either venue
appears in more than one returned pair. -/
theorem C2_threshold_and_one_to_one (scorer : String → String → Rat)
    (threshold : Rat) (kalshi_markets poly_markets : List UnifiedMarket)
    (hNk : (kalshi_markets.map fun m => m.market_id).Nodup)
    (hNp : (poly_markets.map fun m => m.market_id).Nodup) :
    (∀ p ∈ find_matches scorer threshold kalshi_markets poly_markets,
        threshold ≤ p.match_score) ∧
    (find_matches scorer threshold kalshi_markets poly_markets).Pairwise
      (fun p q => p.kalshi_market.market_id ≠ q.kalshi_market.market_id ∧
        p.poly_market.market_id ≠ q.poly_market.market_id) := by
  simp only [find_matches]
  split
  · simp
  · rename_i hne
    have hpne : poly_markets ≠ [] := by
      intro he
      exact hne (Or.inr (by simp [he]))
    constructor
    · intro p hp
      exact commitLoop_score _ _ _ _ _ _ p hp
    · apply commitLoop_pairwise _ _ _ _ hNk hNp
      · exact ((List.perm_insertionSort _ _).nodup_iff).mpr (List.nodup_range _)
      · intro a ha
        exact List.mem_range.mp ((List.mem_insertionSort _).mp ha)
      · intro a ha
        have hal : a < kalshi_markets.length :=
          List.mem_range.mp ((List.mem_insertionSort _).mp ha)
        rw [List.getD_eq_getElem _ _ (by simpa using hal), List.getElem_map]
        have hrow := rowBest_fst_lt
          ((poly_markets.map normalized_title).map
            (scorer (normalized_title kalshi_markets[a])))
          (by simp [hpne])
        simpa using hrow

/-- C2 counterexample: with two kalshi entries carrying the same market id
but different titles, both rows commit against different poly markets, so
the single kalshi market id appears in two returned pairs and the
one-to-one property of the claim fails. -/
theorem C2_counterexample :
    ¬ ((find_matches
          (fun s t => if s = "aa" ∧ t = "cc" then 90
            else if s = "bb" ∧ t = "dd" then (85 : Rat) else 0) 80
          [⟨Platform.KALSHI, "k1", "aa"⟩, ⟨Platform.KALSHI, "k1", "bb"⟩]
          [⟨Platform.POLYMARKET, "p1", "cc"⟩, ⟨Platform.POLYMARKET, "p2", "dd"⟩]).Pairwise
        (fun p q => p.kalshi_market.market_id ≠ q.kalshi_market.market_id ∧
          p.poly_market.market_id ≠ q.poly_market.market_id)) := by
  intro h
  have he : find_matches
      (fun s t => if s = "aa" ∧ t = "cc" then 90
        else if s = "bb" ∧ t = "dd" then (85 : Rat) else 0) 80
      [⟨Platform.KALSHI, "k1", "aa"⟩, ⟨Platform.KALSHI, "k1", "bb"⟩]
      [⟨Platform.POLYMARKET, "p1", "cc"⟩, ⟨Platform.POLYMARKET, "p2", "dd"⟩] =
      [{ kalshi_market := ⟨Platform.KALSHI, "k1", "aa"⟩
         poly_market := ⟨Platform.POLYMARKET, "p1", "cc"⟩
         match_score := 90 },
       { kalshi_market := ⟨Platform.KALSHI, "k1", "bb"⟩
         poly_market := ⟨Platform.POLYMARKET, "p2", "dd"⟩
         match_score := 85 }] := by
    with_unfolding_all rfl
  rw [he] at h
  have h2 := (List.pairwise_cons.mp h).1 _ (List.mem_cons_self _ _)
  exact h2.1 rfl

/-- C2 witness: same scenario with distinct kalshi market ids; both pairs
commit and the one-to-one property holds. -/
theorem C2_witness :
    ((([⟨Platform.KALSHI, "k1", "aa"⟩, ⟨Platform.KALSHI, "k2", "bb"⟩] :
        List UnifiedMarket).map fun m => m.market_id).Nodup ∧
     (([⟨Platform.POLYMARKET, "p1", "cc"⟩, ⟨Platform.POLYMARKET, "p2", "dd"⟩] :
        List UnifiedMarket).map fun m => m.market_id).Nodup) ∧
    ((∀ p ∈ find_matches
          (fun s t => if s = "aa" ∧ t = "cc" then 90
            else if s = "bb" ∧ t = "dd" then (85 : Rat) else 0) 80
          [⟨Platform.KALSHI, "k1", "aa"⟩, ⟨Platform.KALSHI, "k2", "bb"⟩]
          [⟨Platform.POLYMARKET, "p1", "cc"⟩, ⟨Platform.POLYMARKET, "p2", "dd"⟩],
        (80 : Rat) ≤ p.match_score) ∧
     (find_matches
          (fun s t => if s = "aa" ∧ t = "cc" then 90
            else if s = "bb" ∧ t = "dd" then (85 : Rat) else 0) 80
          [⟨Platform.KALSHI, "k1", "aa"⟩, ⟨Platform.KALSHI, "k2", "bb"⟩]
          [⟨Platform.POLYMARKET, "p1", "cc"⟩, ⟨Platform.POLYMARKET, "p2", "dd"⟩]).Pairwise
        (fun p q => p.kalshi_market.market_id ≠ q.kalshi_market.market_id ∧
          p.poly_market.market_id ≠ q.poly_market.market_id)) :=
  ⟨⟨by simp, by simp⟩,
    C2_threshold_and_one_to_one _ 80
      [⟨Platform.KALSHI, "k1", "aa"⟩, ⟨Platform.KALSHI, "k2", "bb"⟩]
      [⟨Platform.POLYMARKET, "p1", "cc"⟩, ⟨Platform.POLYMARKET, "p2", "dd"⟩]
      (by simp) (by simp)⟩

/-- C5: scenario D of the spec. Two kalshi markets share the same best
poly market, with best scores 90 and 85; only the 90-score pair commits,
and the 85-score kalshi market appears in no pair even though a different,
unclaimed poly market scores 81 (above threshold 80) against it. -/
theorem C5_greedy_drops_lower_row :
    find_matches
        (fun s t => if s = "a1" ∧ t = "b1" then (90 : Rat)
          else if s = "a2" ∧ t = "b1" then 85
          else if s = "a2" ∧ t = "b2" then 81
          else if s = "a1" ∧ t = "b2" then 10 else 0) 80
        [⟨Platform.KALSHI, "k1", "a1"⟩, ⟨Platform.KALSHI, "k2", "a2"⟩]
        [⟨Platform.POLYMARKET, "p1", "b1"⟩, ⟨Platform.POLYMARKET, "p2", "b2"⟩] =
      [{ kalshi_market := ⟨Platform.KALSHI, "k1", "a1"⟩
         poly_market := ⟨Platform.POLYMARKET, "p1", "b1"⟩
         match_score := 90 }] ∧
    ∀ p ∈ find_matches
        (fun s t => if s = "a1" ∧ t = "b1" then (90 : Rat)
          else if s = "a2" ∧ t = "b1" then 85
          else if s = "a2" ∧ t = "b2" then 81
          else if s = "a1" ∧ t = "b2" then 10 else 0) 80
        [⟨Platform.KALSHI, "k1", "a1"⟩, ⟨Platform.KALSHI, "k2", "a2"⟩]
        [⟨Platform.POLYMARKET, "p1", "b1"⟩, ⟨Platform.POLYMARKET, "p2", "b2"⟩],
      p.kalshi_market.market_id ≠ "k2" := by
  have he : find_matches
      (fun s t => if s = "a1" ∧ t = "b1" then (90 : Rat)
        else if s = "a2" ∧ t = "b1" then 85
        else if s = "a2" ∧ t = "b2" then 81
        else if s = "a1" ∧ t = "b2" then 10 else 0) 80
      [⟨Platform.KALSHI, "k1", "a1"⟩, ⟨Platform.KALSHI, "k2", "a2"⟩]
      [⟨Platform.POLYMARKET, "p1", "b1"⟩, ⟨Platform.POLYMARKET, "p2", "b2"⟩] =
      [{ kalshi_market := ⟨Platform.KALSHI, "k1", "a1"⟩
         poly_market := ⟨Platform.POLYMARKET, "p1", "b1"⟩
         match_score := 90 }] := by
    with_unfolding_all rfl
  refine ⟨he, ?_⟩
  rw [he]
  intro p hp
  rcases List.mem_cons.mp hp with rfl | hp2
  · simp
  · simp at hp2

/-- C9: the walk and the matcher are pure functions: two runs on equal
inputs produce equal outputs. -/
theorem C9_deterministic (scorer : String → String → Rat) (threshold : Rat)
    (k1 k2 p1 p2 : List UnifiedMarket)
    (minProfit : Rat) (yesPlat noPlat : Platform)
    (ya1 ya2 na1 na2 : List OrderbookLevel)
    (hk : k1 = k2) (hp : p1 = p2) (hy : ya1 = ya2) (hn : na1 = na2) :
    find_matches scorer threshold k1 p1 = find_matches scorer threshold k2 p2 ∧
    walk_orderbook minProfit yesPlat noPlat ya1 na1 =
      walk_orderbook minProfit yesPlat noPlat ya2 na2 := by
  subst hk
  subst hp
  subst hy
  subst hn
  exact ⟨rfl, rfl⟩

/-- C9 witness: instantiation at concrete equal inputs. -/
theorem C9_witness :
    (([⟨Platform.KALSHI, "k1", "t"⟩] : List UnifiedMarket) =
        [⟨Platform.KALSHI, "k1", "t"⟩]) ∧
    (find_matches (fun _ _ => (0 : Rat)) 80
        [⟨Platform.KALSHI, "k1", "t"⟩] [⟨Platform.POLYMARKET, "p1", "u"⟩] =
      find_matches (fun _ _ => (0 : Rat)) 80
        [⟨Platform.KALSHI, "k1", "t"⟩] [⟨Platform.POLYMARKET, "p1", "u"⟩] ∧
     walk_orderbook (1/50) Platform.KALSHI Platform.POLYMARKET
        [⟨2/5, 5⟩] [⟨1/2, 5⟩] =
      walk_orderbook (1/50) Platform.KALSHI Platform.POLYMARKET
        [⟨2/5, 5⟩] [⟨1/2, 5⟩]) :=
  ⟨rfl,
    C9_deterministic (fun _ _ => (0 : Rat)) 80
      [⟨Platform.KALSHI, "k1", "t"⟩] [⟨Platform.KALSHI, "k1", "t"⟩]
      [⟨Platform.POLYMARKET, "p1", "u"⟩] [⟨Platform.POLYMARKET, "p1", "u"⟩]
      (1/50) Platform.KALSHI Platform.POLYMARKET
      [⟨2/5, 5⟩] [⟨2/5, 5⟩] [⟨1/2, 5⟩] [⟨1/2, 5⟩] rfl rfl rfl rfl⟩

/-- An opportunity is withheld exactly when both directed walks emit no
level at all. -/
lemma calc_opp_none_iff (minProfit : Rat) (pair : MarketPair)
    (kb pb : Orderbook) :
    calculate_opportunity minProfit pair kb pb = none ↔
      walk_orderbook minProfit Platform.KALSHI Platform.POLYMARKET
          kb.yes_asks pb.no_asks ++
        walk_orderbook minProfit Platform.POLYMARKET Platform.KALSHI
          pb.yes_asks kb.no_asks = [] := by
  simp only [calculate_opportunity]
  split
  · rename_i h
    constructor
    · intro _
      have h2 := List.isEmpty_iff.mp h
      have hperm := List.perm_insertionSort profitDesc
        (walk_orderbook minProfit Platform.KALSHI Platform.POLYMARKET
            kb.yes_asks pb.no_asks ++
          walk_orderbook minProfit Platform.POLYMARKET Platform.KALSHI
            pb.yes_asks kb.no_asks)
      rw [h2] at hperm
      exact (List.Perm.nil_eq hperm).symm
    · intro _
      rfl
  · rename_i h
    constructor
    · intro hc
      exact absurd hc (by simp)
    · intro hc
      exact absurd (List.isEmpty_iff.mpr (by rw [hc]; rfl)) h

/-- A returned opportunity always carries at least one level. -/
lemma calc_opp_some_levels (minProfit : Rat) (pair : MarketPair)
    (kb pb : Orderbook) (opp : ArbitrageOpportunity)
    (h : calculate_opportunity minProfit pair kb pb = some opp) :
    opp.levels ≠ [] := by
  simp only [calculate_opportunity] at h
  split at h
  · exact absurd h (by simp)
  · rename_i hne
    injection h with h2
    rw [← h2]
    intro hl
    exact hne (List.isEmpty_iff.mpr hl)

lemma findLoop_cons_skip (minProfit : Rat)
    (kbooks pbooks : String → Option Orderbook) (pair : MarketPair)
    (rest : List MarketPair)
    (h : kbooks pair.kalshi_market.market_id = none ∨
      pbooks pair.poly_market.market_id = none) :
    findLoop minProfit kbooks pbooks (pair :: rest) =
      findLoop minProfit kbooks pbooks rest := by
  cases hkk : kbooks pair.kalshi_market.market_id with
  | none => simp only [findLoop, hkk]
  | some kb =>
    cases hpp : pbooks pair.poly_market.market_id with
    | none => simp only [findLoop, hkk, hpp]
    | some pb =>
      rcases h with h | h
      · rw [hkk] at h
        exact absurd h (by simp)
      · rw [hpp] at h
        exact absurd h (by simp)

lemma findLoop_cons_hit (minProfit : Rat)
    (kbooks pbooks : String → Option Orderbook) (pair : MarketPair)
    (rest : List MarketPair) (kb pb : Orderbook) (opp : ArbitrageOpportunity)
    (hk : kbooks pair.kalshi_market.market_id = some kb)
    (hp : pbooks pair.poly_market.market_id = some pb)
    (hc : calculate_opportunity minProfit pair kb pb = some opp) :
    findLoop minProfit kbooks pbooks (pair :: rest) =
      opp :: findLoop minProfit kbooks pbooks rest := by
  simp only [findLoop, hk, hp, hc]

lemma findLoop_cons_miss (minProfit : Rat)
    (kbooks pbooks : String → Option Orderbook) (pair : MarketPair)
    (rest : List MarketPair) (kb pb : Orderbook)
    (hk : kbooks pair.kalshi_market.market_id = some kb)
    (hp : pbooks pair.poly_market.market_id = some pb)
    (hc : calculate_opportunity minProfit pair kb pb = none) :
    findLoop minProfit kbooks pbooks (pair :: rest) =
      findLoop minProfit kbooks pbooks rest := by
  simp only [findLoop, hk, hp, hc]

/-- Every opportunity the pair loop collects has a non-empty level list. -/
lemma findLoop_levels (minProfit : Rat)
    (kbooks pbooks : String → Option Orderbook) :
    ∀ (pairs : List MarketPair),
      ∀ opp ∈ findLoop minProfit kbooks pbooks pairs, opp.levels ≠ [] := by
  intro pairs
  induction pairs with
  | nil => intro opp h; simp [findLoop] at h
  | cons pair rest ih =>
    intro opp h
    cases hkk : kbooks pair.kalshi_market.market_id with
    | none =>
      rw [findLoop_cons_skip minProfit kbooks pbooks pair rest (Or.inl hkk)] at h
      exact ih opp h
    | some kb =>
      cases hpp : pbooks pair.poly_market.market_id with
      | none =>
        rw [findLoop_cons_skip minProfit kbooks pbooks pair rest (Or.inr hpp)] at h
        exact ih opp h
      | some pb =>
        cases hco : calculate_opportunity minProfit pair kb pb with
        | none =>
          rw [findLoop_cons_miss minProfit kbooks pbooks pair rest kb pb hkk hpp hco] at h
          exact ih opp h
        | some o =>
          rw [findLoop_cons_hit minProfit kbooks pbooks pair rest kb pb o hkk hpp hco] at h
          rcases List.mem_cons.mp h with rfl | h2
          · exact calc_opp_some_levels minProfit pair kb pb opp hco
          · exact ih opp h2

/-- C7: an opportunity is produced for a pair exactly when both books are
present and the two directed walks together emit at least one level; a
pair with a missing book is skipped silently, and every returned
opportunity has a non-empty level list. -/
theorem C7_missing_books_and_nonempty_levels (minProfit : Rat) :
    (∀ (pair : MarketPair) (kb pb : Orderbook),
        calculate_opportunity minProfit pair kb pb ≠ none ↔
          walk_orderbook minProfit Platform.KALSHI Platform.POLYMARKET
              kb.yes_asks pb.no_asks ++
            walk_orderbook minProfit Platform.POLYMARKET Platform.KALSHI
              pb.yes_asks kb.no_asks ≠ []) ∧
    (∀ (pairs : List MarketPair) (kbooks pbooks : String → Option Orderbook),
        ∀ opp ∈ find_all_opportunities minProfit pairs kbooks pbooks,
          opp.levels ≠ []) ∧
    (∀ (pairs : List MarketPair) (kbooks pbooks : String → Option Orderbook)
        (pair : MarketPair),
        kbooks pair.kalshi_market.market_id = none ∨
          pbooks pair.poly_market.market_id = none →
        find_all_opportunities minProfit (pair :: pairs) kbooks pbooks =
          find_all_opportunities minProfit pairs kbooks pbooks) ∧
    (∀ (pairs : List MarketPair) (kbooks pbooks : String → Option Orderbook)
        (pair : MarketPair) (kb pb : Orderbook) (opp : ArbitrageOpportunity),
        kbooks pair.kalshi_market.market_id = some kb →
        pbooks pair.poly_market.market_id = some pb →
        calculate_opportunity minProfit pair kb pb = some opp →
        opp ∈ find_all_opportunities minProfit (pair :: pairs) kbooks pbooks) := by
  refine ⟨?_, ?_, ?_, ?_⟩
  · intro pair kb pb
    exact not_iff_not.mpr (calc_opp_none_iff minProfit pair kb pb)
  · intro pairs kbooks pbooks opp h
    have h2 := (List.mem_insertionSort oppDesc).mp h
    exact findLoop_levels minProfit kbooks pbooks pairs opp h2
  · intro pairs kbooks pbooks pair h
    simp only [find_all_opportunities]
    rw [findLoop_cons_skip minProfit kbooks pbooks pair pairs h]
  · intro pairs kbooks pbooks pair kb pb opp hk hp hc
    simp only [find_all_opportunities]
    apply (List.mem_insertionSort oppDesc).mpr
    rw [findLoop_cons_hit minProfit kbooks pbooks pair pairs kb pb opp hk hp hc]
    exact List.mem_cons_self _ _

/-- C7 witness: a pair whose books are absent from both maps is skipped. -/
theorem C7_witness :
    ((fun (_ : String) => (none : Option Orderbook))
        ({ kalshi_market := ⟨Platform.KALSHI, "k", "t"⟩
           poly_market := ⟨Platform.POLYMARKET, "p", "u"⟩
           match_score := 90 } : MarketPair).kalshi_market.market_id = none ∨
      (fun (_ : String) => (none : Option Orderbook))
        ({ kalshi_market := ⟨Platform.KALSHI, "k", "t"⟩
           poly_market := ⟨Platform.POLYMARKET, "p", "u"⟩
           match_score := 90 } : MarketPair).poly_market.market_id = none) ∧
    find_all_opportunities (1/50)
        [{ kalshi_market := ⟨Platform.KALSHI, "k", "t"⟩
           poly_market := ⟨Platform.POLYMARKET, "p", "u"⟩
           match_score := 90 }]
        (fun _ => none) (fun _ => none) =
      find_all_opportunities (1/50) [] (fun _ => none) (fun _ => none) :=
  ⟨Or.inl rfl,
    (C7_missing_books_and_nonempty_levels (1/50)).2.2.1 [] (fun _ => none)
      (fun _ => none)
      { kalshi_market := ⟨Platform.KALSHI, "k", "t"⟩
        poly_market := ⟨Platform.POLYMARKET, "p", "u"⟩
        match_score := 90 } (Or.inl rfl)⟩

end PolyKalshiArb
